import Mathlib

/-!
Verification of the `seb` bibliography-management core (repository `mc1098/ci601`).

This file gives a shallow embedding of the core data model and operations:

* `QuotedString` (`crates/seb/src/ast/quoted_string.rs`) — a text buffer plus a
  list of byte-offset markers delimiting alternating plain/verbatim spans;
* the BibTeX codec (`seb-lib/src/format/bibtex.rs`) — verbatim-chunk merging,
  field/entry/collection composition;
* the entry `Resolver` (`seb-lib/src/ast/entry/resolver.rs`) and the
  collection types `Biblio`/`BiblioResolver` (`seb-lib/src/ast/biblio/`).

Rust `String`s are modelled by Lean `String`s; Rust's byte-based `len`/slicing
is modelled explicitly through UTF-8 byte counts (`Char.utf8Size`), and slicing
operations that can panic in Rust (index out of bounds or not on a character
boundary) are modelled as `Option`-returning functions where `none` stands for
the panic.  Rust `HashMap`s are modelled as association lists in which `insert`
replaces an existing binding in place; iteration order of a map is modelled by
the list order (in Rust it is unspecified).
-/

/-- UTF-8 byte length of a list of characters (Rust `str::len`). -/
def utf8Len : List Char → Nat
  | [] => 0
  | c :: rest => c.utf8Size + utf8Len rest

/-- UTF-8 byte length of a string (Rust `String::len` / `str::len`). -/
def byteLen (s : String) : Nat := utf8Len s.data

/-- Drop `n` leading bytes from a character list.  Returns `none` when `n`
overruns the list or does not land on a character boundary (the cases in which
Rust byte-slicing panics / `str::get` returns `None`). -/
def dropBytes : List Char → Nat → Option (List Char)
  | l, 0 => some l
  | [], _ + 1 => none
  | c :: rest, n + 1 =>
      if c.utf8Size ≤ n + 1 then dropBytes rest (n + 1 - c.utf8Size) else none

/-- Take `n` leading bytes from a character list; `none` when `n` overruns the
list or does not land on a character boundary. -/
def takeBytes : List Char → Nat → Option (List Char)
  | _, 0 => some []
  | [], _ + 1 => none
  | c :: rest, n + 1 =>
      if c.utf8Size ≤ n + 1 then (takeBytes rest (n + 1 - c.utf8Size)).map (c :: ·) else none

/-- Rust string slicing `&s[a..b]` by byte offsets.  `none` models the panic
(resp. `str::get` returning `None`): `a > b`, offsets out of range, or offsets
not on character boundaries. -/
def sliceStr (s : String) (a b : Nat) : Option String :=
  if a ≤ b then
    (dropBytes s.data a).bind fun l => (takeBytes l (b - a)).map fun cs => ⟨cs⟩
  else none

/-- Model of Rust `str::to_lowercase` (per-character lowercasing). -/
def toLowerStr (s : String) : String := ⟨s.data.map Char.toLower⟩

/-- A string with tagged verbatim sub-spans: a plain text buffer `value` plus a
list of offsets `markers` delimiting alternating plain/verbatim spans
(`crates/seb/src/ast/quoted_string.rs`, `struct QuotedString`). -/
structure QuotedString where
  markers : List Nat
  value : String
deriving DecidableEq

/-- `QuotedString::new`: a plain value, no verbatim spans. -/
def QuotedString.new (value : String) : QuotedString :=
  { markers := [], value := value }

/-- `QuotedString::quote`: the entire value is one verbatim span. -/
def QuotedString.quote (value : String) : QuotedString :=
  { markers := [0, byteLen value], value := value }

/-- The character scan of `QuotedString::from_quoted`: `i` counts the
characters kept so far; a character matching the escape predicate contributes a
marker at offset `i` and is dropped, any other character is kept. -/
def fromQuotedGo (p : Char → Bool) : List Char → Nat → List Nat × List Char
  | [], _ => ([], [])
  | c :: rest, i =>
      if p c then
        let (ms, v) := fromQuotedGo p rest i
        (i :: ms, v)
      else
        let (ms, v) := fromQuotedGo p rest (i + 1)
        (ms, c :: v)

/-- `QuotedString::from_quoted`: scan the input character by character,
recording predicate-matched characters as marker boundaries and excluding them
from the stored buffer.  The `EscapePattern` argument is modelled as a boolean
predicate on characters. -/
def QuotedString.from_quoted (quoted : String) (p : Char → Bool) : QuotedString :=
  let (ms, v) := fromQuotedGo p quoted.data 0
  { markers := ms, value := ⟨v⟩ }

/-- The fold inside `QuotedString::from_parts`: `len` is the byte length of the
already-concatenated prefix; a verbatim part records the marker pair
`(len, len + byteLen s)`. -/
def fromPartsGo : List (Bool × String) → Nat → List Nat × String
  | [], _ => ([], "")
  | (b, s) :: rest, len =>
      let newLen := len + byteLen s
      let (ms, v) := fromPartsGo rest newLen
      (if b then len :: newLen :: ms else ms, s ++ v)

/-- `QuotedString::from_parts`: concatenate the parts, recording a marker pair
for each verbatim part; empty input yields the default empty value. -/
def QuotedString.from_parts (parts : List (Bool × String)) : QuotedString :=
  if parts.isEmpty then { markers := [], value := "" }
  else
    let (ms, v) := fromPartsGo parts 0
    { markers := ms, value := v }

/-- The marker walk of `QuotedString::map_quoted`: slices `value` between
consecutive byte offsets, alternating plain copy and `f`-transform starting in
plain mode.  `none` models a Rust slicing panic. -/
def mapQuotedGo (value : String) (f : String → String) :
    List Nat → Bool → Nat → String → Option String
  | [], verbatim, pos, res =>
      if pos < byteLen value then
        (sliceStr value pos (byteLen value)).map fun s =>
          res ++ (if verbatim then f s else s)
      else some res
  | m :: ms, verbatim, pos, res =>
      (sliceStr value pos m).bind fun s =>
        mapQuotedGo value f ms (!verbatim) m (res ++ (if verbatim then f s else s))

/-- `QuotedString::map_quoted`: rebuild a string by passing verbatim spans
through `f` and copying plain spans unchanged.  `none` models the panic Rust
raises when a marker is out of range or not on a character boundary. -/
def QuotedString.map_quoted (qs : QuotedString) (f : String → String) : Option String :=
  if qs.value.data.isEmpty then some ""
  else mapQuotedGo qs.value f qs.markers false 0 ""

/-- The derived `PartialEq` of `QuotedString`: field-by-field comparison of
`markers` and `value` (`#[derive(Clone, Debug, Default, PartialEq)]`). -/
def qsEq (a b : QuotedString) : Bool :=
  a.markers == b.markers && a.value == b.value

example : QuotedString.from_quoted "foo bar $baz$" (fun c => c == '$') =
    { markers := [8, 11], value := "foo bar baz" } := by decide

example : (QuotedString.from_quoted "\x7b(HTTP/1.1)\x7d"
    (fun c => c == '\x7b' || c == '\x7d')).map_quoted (fun s => "\x7b" ++ s ++ "\x7d") =
    some "\x7b(HTTP/1.1)\x7d" := by decide

/-- A chunk of the external grammar library (`biblatex::Chunk`): either normal
styled text or a verbatim (brace-protected) span. -/
inductive Chunk where
  | Normal (s : String)
  | Verbatim (s : String)
deriving DecidableEq

/-- The escape check of `verbatim_chunk_merge`: whether the last character of
the buffer is the escape marker `'/'`
(`verbatim_str.chars().last().map(|c| c == '/').unwrap_or_default()`). -/
def endsWithEscape (s : String) : Bool :=
  match s.data.getLast? with
  | some c => c == '/'
  | none => false

/-- The loop of `merge_escaped` in `From<biblatex::Chunks> for QuotedString`
(`seb-lib/src/format/bibtex.rs`): consume chunks, appending their raw text to
`dest` and counting `Normal` chunks; after appending a `Verbatim` chunk (itself
first re-merged if it ends in the escape marker) stop once two `Normal` chunks
have been consumed.  The shared mutable iterator of the Rust code is modelled
by threading the remaining chunk list through the result; `fuel` bounds the
recursion and never runs out when `fuel ≥ l.length`, since every step consumes
at least one chunk (see `mergeEscapedGo_rest_length` and
`mergeEscapedGo_fuel_irrelevant`). -/
def mergeEscapedGo : Nat → String → Nat → List Chunk → String × List Chunk
  | 0, dest, _, l => (dest, l)
  | _ + 1, dest, _, [] => (dest, [])
  | fuel + 1, dest, normalCount, Chunk.Normal s :: rest =>
      mergeEscapedGo fuel (dest ++ s) (normalCount + 1) rest
  | fuel + 1, dest, normalCount, Chunk.Verbatim s :: rest =>
      let p := if endsWithEscape s then mergeEscapedGo fuel s 0 rest else (s, rest)
      if normalCount == 2 then (dest ++ p.1, p.2)
      else mergeEscapedGo fuel (dest ++ p.1) normalCount p.2

/-- `merge_escaped`: merge the chunks following an escape-terminated verbatim
buffer `dest` into it, returning the merged buffer and the unconsumed chunks. -/
def mergeEscaped (dest : String) (normalCount : Nat) (l : List Chunk) : String × List Chunk :=
  mergeEscapedGo l.length dest normalCount l

/-- `verbatim_chunk_merge`: if the verbatim buffer ends in the escape marker,
merge the following chunks into it via `merge_escaped`. -/
def verbatimChunkMerge (s : String) (l : List Chunk) : String × List Chunk :=
  if endsWithEscape s then mergeEscaped s 0 l else (s, l)

/-- The chunk walk of `From<biblatex::Chunks> for QuotedString`: map each chunk
to a `(is_verbatim, text)` part, merging escape-split verbatim chunks.  As in
`mergeEscapedGo`, `fuel ≥ l.length` suffices. -/
def chunksToPartsGo : Nat → List Chunk → List (Bool × String)
  | 0, _ => []
  | _ + 1, [] => []
  | fuel + 1, Chunk.Normal s :: rest => (false, s) :: chunksToPartsGo fuel rest
  | fuel + 1, Chunk.Verbatim s :: rest =>
      let p := if endsWithEscape s then mergeEscapedGo fuel s 0 rest else (s, rest)
      (true, p.1) :: chunksToPartsGo fuel p.2

/-- The chunk-to-parts conversion of `From<biblatex::Chunks> for QuotedString`. -/
def chunksToParts (l : List Chunk) : List (Bool × String) :=
  chunksToPartsGo l.length l

/-- `From<biblatex::Chunks> for QuotedString`: merge escape-split verbatim
chunks and build the `QuotedString` from the resulting parts. -/
def chunksToQuotedString (l : List Chunk) : QuotedString :=
  QuotedString.from_parts (chunksToParts l)

example : chunksToQuotedString
    [Chunk.Verbatim "(HTTP/", Chunk.Normal "1", Chunk.Verbatim ".",
     Chunk.Normal "1", Chunk.Verbatim ")"] =
    { markers := [0, 10], value := "(HTTP/1.1)" } := by decide

/-- Association-list model of Rust `HashMap::insert`: replace the value of an
existing binding in place, otherwise add a new binding. -/
def hashInsert {α : Type} (l : List (String × α)) (k : String) (v : α) : List (String × α) :=
  if l.any (fun p => p.1 == k) then
    l.map (fun p => if p.1 == k then (p.1, v) else p)
  else l ++ [(k, v)]

/-- Association-list model of Rust `HashMap::get`. -/
def hashGet {α : Type} (l : List (String × α)) (k : String) : Option α :=
  (l.find? (fun p => p.1 == k)).map (·.2)

/-- Association-list model of collecting an iterator of key-value pairs into a
Rust `HashMap` (`.collect()`): left-to-right insertion, later bindings
replacing earlier ones with the same key. -/
def hashCollect {α : Type} (l : List (String × α)) : List (String × α) :=
  l.foldl (fun acc p => hashInsert acc p.1 p.2) []

/-- The closed catalog of entry kinds (`EntryKind` in
`seb-lib/src/ast/entry/mod.rs`), plus the open-ended `Other` catch-all. -/
inductive EntryKind where
  | Article
  | Book
  | Booklet
  | BookChapter
  | BookPages
  | BookSection
  | InProceedings
  | Manual
  | MasterThesis
  | PhdThesis
  | Proceedings
  | TechReport
  | Unpublished
  | Other (kind : String)
deriving DecidableEq

/-- `EntryKind::required_fields`: the fixed required-field list of each entry
kind, per the `entry_impl!` macro invocation; `Other` requires only `title`. -/
def EntryKind.required_fields : EntryKind → List String
  | .Article => ["author", "title", "journal", "year"]
  | .Book => ["author", "title", "publisher", "year"]
  | .Booklet => ["title"]
  | .BookChapter => ["author", "title", "chapter", "publisher", "year"]
  | .BookPages => ["author", "title", "pages", "publisher", "year"]
  | .BookSection => ["author", "title", "book_title", "publisher", "year"]
  | .InProceedings => ["author", "title", "book_title", "year"]
  | .Manual => ["title"]
  | .MasterThesis => ["author", "title", "school", "year"]
  | .PhdThesis => ["author", "title", "school", "year"]
  | .Proceedings => ["title", "year"]
  | .TechReport => ["author", "title", "institution", "year"]
  | .Unpublished => ["author", "title"]
  | .Other _ => ["title"]

/-- A finished bibliography entry.  The per-kind structs generated by the
`entry_impl!` macro split the fields into named required fields plus an
`optional` map; this model keeps them in a single field map (the split is a
representation detail not observable through `cite`/`kind`/`fields`). -/
structure Entry where
  cite : String
  kind : EntryKind
  fields : List (String × QuotedString)
deriving DecidableEq

/-- The entry `Resolver` (`seb-lib/src/ast/entry/resolver.rs`): target kind,
optional pre-chosen citation key, remaining required field names `req`
(a `Vec`, popped from the back), and the accumulated field map.  The stored
`entry_resolve` function pointer is modelled by the single function
`entryResolve` below, which all kinds share. -/
structure Resolver where
  target : EntryKind
  cite : Option String
  req : List String
  fields : List (String × QuotedString)
deriving DecidableEq

/-- `Resolver::new`: seed `req` from the catalog, no fields set. -/
def Resolver.new (kind : EntryKind) (cite : Option String) : Resolver :=
  { target := kind, cite := cite, req := kind.required_fields, fields := [] }

/-- Model of Rust `String::retain(|c| !c.is_whitespace())`. -/
def stripWhitespace (s : String) : String :=
  ⟨s.data.filter (fun c => !c.isWhitespace)⟩

/-- `Resolver::cite`: the pre-chosen citation key if present, otherwise derived
from the `author` field (whitespace removed, default `"Unknown"`) and the
`year` field (default `"year"`). -/
def Resolver.citeKey (r : Resolver) : String :=
  match r.cite with
  | some c => c
  | none =>
      let author :=
        match hashGet r.fields "author" with
        | some qs => stripWhitespace qs.value
        | none => "Unknown"
      let year :=
        match hashGet r.fields "year" with
        | some qs => qs.value
        | none => "year"
      author ++ year

/-- The macro-generated per-kind `resolve` function stored in the resolver's
`entry_resolve` field: build the entry with the citation key computed by
`Resolver::cite` and the accumulated fields. -/
def entryResolve (r : Resolver) : Entry :=
  { cite := r.citeKey, kind := r.target, fields := r.fields }

/-- `Resolver::resolve`: `Ok(entry)` when no required fields remain, otherwise
`Err(self)` (the unchanged resolver). -/
def Resolver.resolve (r : Resolver) : Except Resolver Entry :=
  if r.req.isEmpty then .ok (entryResolve r) else .error r

/-- `Resolver::set_normalized_field`: remove the name from the remaining
required set and insert the field (last write wins). -/
def Resolver.set_normalized_field (r : Resolver) (name : String) (value : QuotedString) :
    Resolver :=
  { r with
    req := r.req.filter (fun s => s ≠ name)
    fields := hashInsert r.fields name value }

/-- `Resolver::set_field`: normalize the name to lowercase, then set it. -/
def Resolver.set_field (r : Resolver) (name : String) (value : QuotedString) : Resolver :=
  r.set_normalized_field (toLowerStr name) value

/-- A view into a single required field (`ResolverEntry`): the popped name
(`key`, `None` once consumed by `insert`) together with the resolver it
borrows. -/
structure ResolverEntry where
  key : Option String
  resolver : Resolver
deriving DecidableEq

/-- `Resolver::next_required_entry`: pop one remaining required name
(`Vec::pop` takes the last element) and return the scoped handle. -/
def Resolver.next_required_entry (r : Resolver) : Option ResolverEntry :=
  match r.req.getLast? with
  | none => none
  | some name => some { key := some name, resolver := { r with req := r.req.dropLast } }

/-- The `Drop` impl of `ResolverEntry`: if the key has not been taken by
`insert`, push it back onto the resolver's required set. -/
def ResolverEntry.dropHandle (e : ResolverEntry) : Resolver :=
  match e.key with
  | some k => { e.resolver with req := e.resolver.req ++ [k] }
  | none => e.resolver

/-- `ResolverEntry::insert`: take the key and insert the value into the
resolver's field map.  (In Rust the key is always `Some` here; the `none`
branch is unreachable and returns the resolver unchanged.) -/
def ResolverEntry.insertValue (e : ResolverEntry) (v : QuotedString) : Resolver :=
  match e.key with
  | some k => { e.resolver with fields := hashInsert e.resolver.fields k v }
  | none => e.resolver

/-- The bibliography collection (`Biblio` in `seb-lib/src/ast/biblio/mod.rs`):
a `dirty` flag plus a map from citation key to entry. -/
structure Biblio where
  dirty : Bool
  entries : List (String × Entry)
deriving DecidableEq

/-- The collection resolver (`BiblioResolver`): a `failed` flag, the
still-outstanding entry resolvers, and the already-finished entries. -/
structure BiblioResolver where
  failed : Bool
  resolvers : List Resolver
  entries : List Entry
deriving DecidableEq

/-- Decidable equality of `Except` results, for evaluating the resolution
functions on concrete inputs. -/
instance {α β : Type} [DecidableEq α] [DecidableEq β] : DecidableEq (Except α β) := fun a b =>
  match a, b with
  | .ok x, .ok y =>
      if h : x = y then isTrue (by rw [h]) else isFalse (by intro hc; cases hc; exact h rfl)
  | .error x, .error y =>
      if h : x = y then isTrue (by rw [h]) else isFalse (by intro hc; cases hc; exact h rfl)
  | .ok _, .error _ => isFalse (by intro hc; cases hc)
  | .error _, .ok _ => isFalse (by intro hc; cases hc)

/-- `try_partition` (`seb-lib/src/ast/biblio/resolver.rs`): split a list of
results into the `Ok` values and the `Err` values, preserving order. -/
def tryPartition (l : List (Except Resolver Entry)) : List Entry × List Resolver :=
  (l.filterMap fun x => match x with | .ok e => some e | .error _ => none,
   l.filterMap fun x => match x with | .ok _ => none | .error r => some r)

/-- `BiblioResolver::resolve`: resolve every outstanding resolver, extend the
finished entries with the successes; if no resolver failed, build the `Biblio`
(keyed by citation key, `dirty` from the `failed` flag), otherwise return the
updated resolver with `failed` set. -/
def BiblioResolver.resolve (br : BiblioResolver) : Except BiblioResolver Biblio :=
  let p := tryPartition (br.resolvers.map Resolver.resolve)
  let entries := br.entries ++ p.1
  if p.2.isEmpty then
    .ok { dirty := br.failed, entries := hashCollect (entries.map fun e => (e.cite, e)) }
  else
    .error { failed := true, resolvers := p.2, entries := entries }

/-- `Biblio::try_resolve`: wrap the resolvers in a fresh `BiblioResolver` and
resolve it. -/
def Biblio.try_resolve (resolvers : List Resolver) : Except BiblioResolver Biblio :=
  BiblioResolver.resolve { failed := false, resolvers := resolvers, entries := [] }

/-- `Biblio::dirty`: return and clear the flag (test-and-reset). -/
def Biblio.dirtyCheck (b : Biblio) : Bool × Biblio :=
  (b.dirty, { b with dirty := false })

/-- `Biblio::insert`: set `dirty` and insert the entry under its citation key
(overwriting any existing entry with that key). -/
def Biblio.insert (b : Biblio) (e : Entry) : Biblio :=
  { dirty := true, entries := hashInsert b.entries e.cite e }

/-- `Biblio::remove`: retain only the entries whose lowercased key differs from
the lowercased query; `removed` records whether anything was dropped and is
or-ed into `dirty`. -/
def Biblio.remove (b : Biblio) (cite : String) : Bool × Biblio :=
  let removed := b.entries.any fun p => toLowerStr p.1 == toLowerStr cite
  (removed,
   { dirty := b.dirty || removed,
     entries := b.entries.filter fun p => toLowerStr p.1 != toLowerStr cite })

/-- `compose_variant`: the BibTeX type label of an entry
(`seb-lib/src/format/bibtex.rs`).  `BookChapter` and `BookPages` both compose
as `inbook`; `Other` uses its declared kind string verbatim. -/
def composeVariant (e : Entry) : String :=
  match e.kind with
  | .Article => "article"
  | .Book => "book"
  | .Booklet => "booklet"
  | .BookChapter => "inbook"
  | .BookPages => "inbook"
  | .BookSection => "incollection"
  | .InProceedings => "inproceedings"
  | .Manual => "manual"
  | .MasterThesis => "masterthesis"
  | .PhdThesis => "phdthesis"
  | .Proceedings => "proceedings"
  | .TechReport => "techreport"
  | .Unpublished => "unpublished"
  | .Other kind => kind

/-- `bibtex_esc`: wrap a verbatim span in braces. -/
def bibtexEsc (s : String) : String := "\x7b" ++ s ++ "\x7d"

/-- Model of Rust `str::parse::<i32>`: optional sign followed by at least one
digit, all digits, and the value must fit in an `i32` (overflow is a parse
error, which `to_short_month` treats like any other non-month value). -/
def parseI32 (s : String) : Option Int :=
  let signed : Int × List Char :=
    match s.data with
    | '+' :: rest => (1, rest)
    | '-' :: rest => (-1, rest)
    | l => (1, l)
  if signed.2.isEmpty || !signed.2.all Char.isDigit then none
  else
    let n : Nat := signed.2.foldl (fun acc c => acc * 10 + (c.toNat - 48)) 0
    let v : Int := signed.1 * n
    if -(2 ^ 31) ≤ v ∧ v < 2 ^ 31 then some v else none

/-- `to_short_month`: parse the month value as an integer and map 1–12 to the
three-letter month name; any other value falls back to the first three bytes
of the value (`month.get(0..3).expect("invalid month value")` — `none` models
that panic), lowercased; the result is the full `month = value` field text. -/
def toShortMonth (month : QuotedString) : Option String :=
  (match parseI32 month.value with
   | some n =>
      if n = 1 then some "jan"
      else if n = 2 then some "feb"
      else if n = 3 then some "mar"
      else if n = 4 then some "apr"
      else if n = 5 then some "may"
      else if n = 6 then some "jun"
      else if n = 7 then some "jul"
      else if n = 8 then some "aug"
      else if n = 9 then some "sep"
      else if n = 10 then some "oct"
      else if n = 11 then some "nov"
      else if n = 12 then some "dec"
      else sliceStr month.value 0 3
   | none => sliceStr month.value 0 3).map fun v => "month = " ++ toLowerStr v

/-- `compose_field`: strip underscores from the field name; a `month` field
composes through `to_short_month`, any other field as
`name = {map_quoted bibtex_esc value}`.  `none` models the panics of the two
partial operations. -/
def composeField (f : String × QuotedString) : Option String :=
  let name : String := ⟨f.1.data.filter (fun c => c ≠ '_')⟩
  if name = "month" then toShortMonth f.2
  else (f.2.map_quoted bibtexEsc).map fun v => name ++ " = \x7b" ++ v ++ "\x7d"

/-- `compose_fields`: compose each field as an indented `name = {value},` line
and concatenate. -/
def composeFields (fields : List (String × QuotedString)) : Option String :=
  match fields with
  | [] => some ""
  | f :: rest =>
      (composeField f).bind fun s =>
        (composeFields rest).map fun t => "    " ++ s ++ ",\n" ++ t

/-- `BibTex::compose_entry`: `@kind{cite,` then the composed fields then `}`. -/
def composeEntry (e : Entry) : Option String :=
  (composeFields e.fields).map fun fs =>
    "@" ++ composeVariant e ++ "\x7b" ++ e.cite ++ ",\n" ++ fs ++ "\x7d\n"

/-- One step of the grouping `HashMap` in `BibTex::compose`
(`map.entry(kind).and_modify(|s| s.push_str(&entry)).or_insert(format!("% {kind}\n{entry}\n"))`):
append the entry text to an existing group, or start a new group with the
`% kind` header, the entry text and a trailing newline. -/
def insertGroup (groups : List (String × String)) (kind entry : String) :
    List (String × String) :=
  if groups.any (fun p => p.1 == kind) then
    groups.map fun p => if p.1 == kind then (p.1, p.2 ++ entry) else p
  else groups ++ [(kind, "% " ++ kind ++ "\n" ++ entry ++ "\n")]

/-- Build the kind-to-group-text map from the `(kind, composed entry)` pairs in
collection iteration order. -/
def buildGroups (pairs : List (String × String)) : List (String × String) :=
  pairs.foldl (fun acc p => insertGroup acc p.1 p.2) []

/-- Insert a pair into a list sorted by first component (the comparison Rust's
`sort_by_key(|(k, _)| *k)` uses: lexicographic string order). -/
def insertSortedPair (x : String × String) : List (String × String) → List (String × String)
  | [] => [x]
  | y :: ys => if x.1 ≤ y.1 then x :: y :: ys else y :: insertSortedPair x ys

/-- Model of `pairs.sort_by_key(|(k, _)| *k)`: insertion sort by key.  The keys
of the group map are distinct, so any stable comparison sort agrees with this. -/
def sortGroups : List (String × String) → List (String × String)
  | [] => []
  | x :: xs => insertSortedPair x (sortGroups xs)

/-- The pure grouping stage of `BibTex::compose`, applied to the
`(kind, composed entry)` pairs in collection iteration order: group, sort the
groups by kind label, and concatenate the group texts. -/
def composeRaw (pairs : List (String × String)) : String :=
  ((sortGroups (buildGroups pairs)).map (fun p => p.2)).foldl (fun acc s => acc ++ s) ""

/-- Serialize the entries to their `(kind label, composed text)` pairs;
`none` models a panic while composing some entry. -/
def composePairs : List Entry → Option (List (String × String))
  | [] => some []
  | e :: rest =>
      (composeEntry e).bind fun s =>
        (composePairs rest).map fun l => (composeVariant e, s) :: l

/-- `BibTex::compose`: serialize every entry of the collection (in map
iteration order), group by kind, and concatenate the sorted groups.  `none`
models a panic while composing some entry. -/
def composeBib (b : Biblio) : Option String :=
  (composePairs (b.entries.map (fun p => p.2))).map composeRaw

/-- Specification-side description of what `QuotedString::from_quoted`
records for each removed character: the number of kept CHARACTERS preceding it
(a removed head character sits at `0`; a kept head character shifts all later
entries by one).  These are character counts, not the byte offsets that the
`QuotedString` marker invariant and `map_quoted`'s byte slicing require; the
two agree only when every kept character preceding a marker is single-byte. -/
def removedCharOffsets (p : Char → Bool) : List Char → List Nat
  | [] => []
  | c :: rest =>
      if p c then 0 :: removedCharOffsets p rest
      else (removedCharOffsets p rest).map (fun n => n + 1)

/-- Specification-side correct BYTE offsets of the removed characters within
the transformed buffer: the UTF-8 byte length of the kept prefix preceding
each removed character (a kept head character shifts all later offsets by its
own byte size). -/
def removedByteOffsets (p : Char → Bool) : List Char → List Nat
  | [] => []
  | c :: rest =>
      if p c then 0 :: removedByteOffsets p rest
      else (removedByteOffsets p rest).map (fun n => n + c.utf8Size)

/-- Specification-side concatenation of a list of strings. -/
def strConcat : List String → String
  | [] => ""
  | s :: rest => s ++ strConcat rest

/-- Specification-side first-occurrence deduplication of the kind labels. -/
def dedupFirst : List String → List String
  | [] => []
  | k :: rest => k :: (dedupFirst rest).filter (fun s => s ≠ k)

/-- The kind labels appearing in the pair list, first occurrences in order. -/
def kindsInOrder (pairs : List (String × String)) : List String :=
  dedupFirst (pairs.map (fun p => p.1))

/-- The composed entry texts of one kind, in collection iteration order. -/
def entriesOfKind (k : String) (pairs : List (String × String)) : List String :=
  (pairs.filter (fun p => p.1 = k)).map (fun p => p.2)

/-- Specification-side text of one kind group, per the behaviour of
`BibTex::compose`: the `% kind` header, then the first entry followed by a
blank line, then the remaining entries with no separator. -/
def groupText (k : String) (es : List String) : String :=
  "% " ++ k ++ "\n" ++
    (match es with
     | [] => ""
     | e :: rest => e ++ "\n" ++ strConcat rest)

/-- Insertion of a key into a sorted key list (lexicographic order). -/
def insertSortedKey (x : String) : List String → List String
  | [] => [x]
  | y :: ys => if x ≤ y then x :: y :: ys else y :: insertSortedKey x ys

/-- Insertion sort of the kind labels (lexicographic order). -/
def sortKeys : List String → List String
  | [] => []
  | x :: xs => insertSortedKey x (sortKeys xs)

/-- Specification-side description of the grouping stage of `BibTex::compose`:
concatenate, over the kind labels in sorted order, the text of each kind
group. -/
def specComposeRaw (pairs : List (String × String)) : String :=
  strConcat ((sortKeys (kindsInOrder pairs)).map
    (fun k => groupText k (entriesOfKind k pairs)))

/-- `n` is a UTF-8 character boundary of the character list `l` (it is the
byte length of some prefix of `l`). -/
def Boundary (l : List Char) (n : Nat) : Prop :=
  ∃ pre suf, l = pre ++ suf ∧ utf8Len pre = n

/-- The markers of a `QuotedString` are usable by `map_quoted` without
panicking: ascending from `0` and each a character boundary of the buffer. -/
def ValidMarkers (qs : QuotedString) : Prop :=
  List.Chain (fun a b => a ≤ b) 0 qs.markers ∧ ∀ m ∈ qs.markers, Boundary qs.value.data m

/-- A month field value that `to_short_month` can compose without panicking:
it parses as an integer month 1–12, or its first three bytes form a valid
character-boundary prefix. -/
def monthSafe (qs : QuotedString) : Prop :=
  (∃ n : Int, parseI32 qs.value = some n ∧ 1 ≤ n ∧ n ≤ 12) ∨
    (sliceStr qs.value 0 3).isSome = true

/-- A field that `compose_field` can compose without panicking. -/
def SafeField (f : String × QuotedString) : Prop :=
  if (⟨f.1.data.filter (fun c => c ≠ '_')⟩ : String) = "month" then monthSafe f.2
  else ValidMarkers f.2

/-- An entry all of whose fields compose without panicking. -/
def SafeEntry (e : Entry) : Prop := ∀ f ∈ e.fields, SafeField f

/-- A finished `manual` entry with citation key `cite` and title `T`
(test fixture). -/
def manualEntry (cite : String) : Entry :=
  { cite := cite, kind := EntryKind.Manual, fields := [("title", QuotedString.new "T")] }

/-- An already-satisfiable `manual` resolver with pre-chosen citation key
(test fixture): `title` set, nothing outstanding. -/
def resolvedManual (cite : String) : Resolver :=
  { target := EntryKind.Manual, cite := some cite, req := [],
    fields := [("title", QuotedString.new "T")] }

/-- A fresh `manual` resolver with pre-chosen citation key and its `title`
requirement still outstanding (test fixture). -/
def unsetManual (cite : String) : Resolver :=
  Resolver.new EntryKind.Manual (some cite)

/-- A `manual` entry carrying a `month` field whose value `"ab"` neither
parses as a month number nor has three bytes (test fixture for the
`to_short_month` panic). -/
def badMonthEntry : Entry :=
  { cite := "m", kind := EntryKind.Manual,
    fields := [("title", QuotedString.new "T"), ("month", QuotedString.new "ab")] }

/-- A collection containing only `badMonthEntry` (test fixture). -/
def badMonthBiblio : Biblio :=
  { dirty := false, entries := [("m", badMonthEntry)] }

/-- A collection holding two `manual` entries (test fixture for the grouping
behaviour of `BibTex::compose`). -/
def twoManualBiblio : Biblio :=
  { dirty := false, entries := [("a", manualEntry "a"), ("b", manualEntry "b")] }

/-- C2: `Resolver::resolve` returns `Ok` exactly when the remaining-required
set is empty, and otherwise returns `Err(self)` with the prior state unchanged
(same target kind, citation key, remaining-required set and accumulated
fields), so no previously entered data is lost on a failed resolve. -/
theorem resolve_ok_iff_empty_and_error_unchanged (r : Resolver) :
    ((∃ e, r.resolve = Except.ok e) ↔ r.req = []) ∧
    (∀ r', r.resolve = Except.error r' → r' = r) := by
  unfold Resolver.resolve
  by_cases h : r.req.isEmpty
  · rw [if_pos h]
    exact ⟨⟨fun _ => List.isEmpty_iff.mp h, fun _ => ⟨entryResolve r, rfl⟩⟩,
      fun r' h' => by cases h'⟩
  · rw [if_neg h]
    refine ⟨⟨?_, fun he => absurd (List.isEmpty_iff.mpr he) h⟩, ?_⟩
    · rintro ⟨e, he⟩
      cases he
    · intro r' h'
      cases h'
      rfl

/-- Witness for C2: a `manual` resolver with its `title` requirement
outstanding fails with itself unchanged, and a fully satisfied one succeeds. -/
theorem resolve_ok_iff_empty_witness :
    (∃ e, (resolvedManual "a").resolve = Except.ok e) ∧
    ((unsetManual "k").resolve = Except.error (unsetManual "k") → unsetManual "k" = unsetManual "k") := by
  refine ⟨(resolve_ok_iff_empty_and_error_unchanged (resolvedManual "a")).1.mpr rfl, ?_⟩
  exact (resolve_ok_iff_empty_and_error_unchanged (unsetManual "k")).2 (unsetManual "k")

/-- C5 counterexample: the derived `PartialEq` of `QuotedString` compares the
marker list, so `QuotedString::new(s)` and `QuotedString::quote(s)` have
identical buffers but compare unequal — the claim that values with identical
buffers and different markers compare equal is false. -/
theorem qs_equality_uses_markers :
    (QuotedString.new "a").value = (QuotedString.quote "a").value ∧
    (QuotedString.new "a").markers ≠ (QuotedString.quote "a").markers ∧
    qsEq (QuotedString.new "a") (QuotedString.quote "a") = false := by decide

/-- C5 (amended): equality of `QuotedString` values is the derived
field-by-field comparison over the marker list and the buffer, so two values
whose buffers are identical but whose markers differ compare unequal. -/
theorem qs_equality_amended (a b : QuotedString)
    (hv : a.value = b.value) (hm : a.markers ≠ b.markers) : qsEq a b = false := by
  simp [qsEq, hv, hm]

/-- Witness for C5 (amended), at `QuotedString::new "a"` versus
`QuotedString::quote "a"`. -/
theorem qs_equality_amended_witness :
    qsEq (QuotedString.new "a") (QuotedString.quote "a") = false :=
  qs_equality_amended (QuotedString.new "a") (QuotedString.quote "a") (by decide) (by decide)

/-- C8: if the scoped handle returned by `next_required_entry` is dropped
without `insert` being called, the popped field name is pushed back onto the
remaining-required set, restoring the resolver exactly; in particular a
resolver whose only remaining required field is `title` again has one required
field after the handle is dropped. -/
theorem drop_restores_required_field (r : Resolver) (e : ResolverEntry)
    (h : r.next_required_entry = some e) :
    e.dropHandle = r ∧ e.dropHandle.req.length = r.req.length ∧
    (r.req = ["title"] → e.dropHandle.req.length = 1) := by
  unfold Resolver.next_required_entry at h
  cases hl : r.req.getLast? with
  | none => rw [hl] at h; cases h
  | some name =>
      rw [hl] at h
      have hne : r.req ≠ [] := by
        intro h0
        rw [h0] at hl
        cases hl
      have hname : name = r.req.getLast hne := by
        rw [List.getLast?_eq_getLast r.req hne] at hl
        cases hl
        rfl
      cases h
      have hfix : r.req.dropLast ++ [name] = r.req := by
        rw [hname]
        exact List.dropLast_append_getLast hne
      have hdrop : ResolverEntry.dropHandle
          { key := some name, resolver := { r with req := r.req.dropLast } } = r := by
        simp [ResolverEntry.dropHandle, hfix]
      exact ⟨hdrop, by rw [hdrop], fun hx => by rw [hdrop, hx]; rfl⟩

/-- Witness for C8: dropping the handle popped from a fresh `manual` resolver
(required fields exactly `["title"]`) restores the resolver and leaves one
required field. -/
theorem drop_restores_required_field_witness :
    ResolverEntry.dropHandle
        { key := some "title",
          resolver := { target := EntryKind.Manual, cite := some "k", req := [], fields := [] } } =
      unsetManual "k" ∧
    (ResolverEntry.dropHandle
        { key := some "title",
          resolver := { target := EntryKind.Manual, cite := some "k", req := [], fields := [] } }).req.length =
      (unsetManual "k").req.length ∧
    ((unsetManual "k").req = ["title"] →
      (ResolverEntry.dropHandle
        { key := some "title",
          resolver := { target := EntryKind.Manual, cite := some "k", req := [], fields := [] } }).req.length = 1) :=
  drop_restores_required_field (unsetManual "k")
    { key := some "title",
      resolver := { target := EntryKind.Manual, cite := some "k", req := [], fields := [] } }
    (by decide)

/-- C10: `Biblio::remove` deletes every entry whose stored key equals the
query after lowercasing both sides (possibly several at once), returns `true`
iff at least one entry was deleted, and or-s that result into the dirty flag
(so it sets the flag exactly when it returns `true`, and leaves it unchanged
otherwise). -/
theorem remove_case_insensitive_spec (b : Biblio) (cite : String) :
    ((b.remove cite).1 = true ↔ ∃ p ∈ b.entries, toLowerStr p.1 = toLowerStr cite) ∧
    (b.remove cite).2.entries =
      b.entries.filter (fun p => toLowerStr p.1 != toLowerStr cite) ∧
    (b.remove cite).2.dirty = (b.dirty || (b.remove cite).1) := by
  refine ⟨?_, rfl, rfl⟩
  simp [Biblio.remove, List.any_eq_true]

/-- C7: `Biblio::insert` then `dirty()` returns `true` and an immediate second
`dirty()` returns `false` (test-and-reset); `Biblio::remove` of a key that is
not present returns `false` and leaves the dirty flag unchanged; a resolution
failure marks the `BiblioResolver` as `failed`, and any collection a `failed`
resolver later assembles has its dirty flag set even if nothing else mutated
it (external field edits replace only the `resolvers` list, never `failed`). -/
theorem dirty_flag_spec :
    (∀ (b : Biblio) (e : Entry),
       (b.insert e).dirtyCheck.1 = true ∧ ((b.insert e).dirtyCheck.2).dirtyCheck.1 = false) ∧
    (∀ (b : Biblio) (c : String),
       (¬∃ p ∈ b.entries, toLowerStr p.1 = toLowerStr c) →
       (b.remove c).1 = false ∧ (b.remove c).2.dirty = b.dirty) ∧
    (∀ br br' : BiblioResolver, br.resolve = Except.error br' → br'.failed = true) ∧
    (∀ (br : BiblioResolver) (b : Biblio),
       br.failed = true → br.resolve = Except.ok b → b.dirty = true) := by
  refine ⟨fun b e => ⟨rfl, rfl⟩, ?_, ?_, ?_⟩
  · intro b c h
    have hr : (b.entries.any fun p => toLowerStr p.1 == toLowerStr c) = false := by
      rw [List.any_eq_false]
      intro x hx hbe
      exact h ⟨x, hx, by simpa using hbe⟩
    constructor
    · exact hr
    · show (b.dirty || (b.entries.any fun p => toLowerStr p.1 == toLowerStr c)) = b.dirty
      rw [hr, Bool.or_false]
  · intro br br' h
    unfold BiblioResolver.resolve at h
    by_cases hp : (tryPartition (br.resolvers.map Resolver.resolve)).2.isEmpty
    · rw [if_pos hp] at h
      cases h
    · rw [if_neg hp] at h
      cases h
      rfl
  · intro br b hf h
    unfold BiblioResolver.resolve at h
    by_cases hp : (tryPartition (br.resolvers.map Resolver.resolve)).2.isEmpty
    · rw [if_pos hp] at h
      cases h
      exact hf
    · rw [if_neg hp] at h
      cases h

/-- Witness for C7, at concrete collections and resolvers: an insert into the
empty collection, a removal of an absent key, a failing single-resolver
resolution, and a retried (failed) resolver that then assembles a dirty
collection. -/
theorem dirty_flag_spec_witness :
    (({ dirty := false, entries := [] } : Biblio).insert (manualEntry "a")).dirtyCheck.1 = true ∧
    (({ dirty := false, entries := [] } : Biblio).remove "x").1 = false ∧
    ({ failed := true, resolvers := [unsetManual "k"], entries := [] } : BiblioResolver).failed = true ∧
    ({ dirty := true, entries := [("a", manualEntry "a")] } : Biblio).dirty = true := by
  refine ⟨(dirty_flag_spec.1 { dirty := false, entries := [] } (manualEntry "a")).1, ?_, ?_, ?_⟩
  · exact (dirty_flag_spec.2.1 { dirty := false, entries := [] } "x" (by simp)).1
  · exact dirty_flag_spec.2.2.1
      { failed := false, resolvers := [unsetManual "k"], entries := [] }
      { failed := true, resolvers := [unsetManual "k"], entries := [] } (by decide)
  · exact dirty_flag_spec.2.2.2
      { failed := true, resolvers := [resolvedManual "a"], entries := [] }
      { dirty := true, entries := [("a", manualEntry "a")] } rfl (by decide)

/-- C3 counterexample: two already-satisfiable resolvers that share the
citation key `a` resolve into a `Collection` whose entry map holds a single
entry, not two — the success branch keys entries by citation key and
duplicates collapse, so `try_resolve` on `n = k = 2` resolvers does not
produce a collection with exactly `k` entries. -/
theorem try_resolve_duplicate_cite_collapses :
    ([resolvedManual "a", resolvedManual "a"].all fun r => r.req.isEmpty) = true ∧
    [resolvedManual "a", resolvedManual "a"].length = 2 ∧
    Biblio.try_resolve [resolvedManual "a", resolvedManual "a"] =
      Except.ok { dirty := false, entries := [("a", manualEntry "a")] } ∧
    ({ dirty := false, entries := [("a", manualEntry "a")] } : Biblio).entries.length = 1 := by
  refine ⟨by decide, by decide, by decide, by decide⟩

/-- C9 counterexample: composing a collection whose single entry carries a
`month` field with value `"ab"` panics — `to_short_month` falls back to
`month.get(0..3).expect(..)` and `"ab"` has only two bytes, so `compose` is
not total (`none` models the panic). -/
theorem compose_month_panics : composeBib badMonthBiblio = none := by decide

/-- C6 counterexample: composing a collection of two `manual` entries puts the
blank line between the two entries of the single `manual` group (the
`or_insert` group seed is `"% kind\n{entry}\n"`, so the blank line follows the
first entry of a group, not the group itself); the output the claim describes
— entries within one group not separated by a blank line — differs. -/
theorem compose_blank_line_within_group :
    composeBib twoManualBiblio =
      some ("% manual\n@manual\x7ba,\n    title = \x7bT\x7d,\n\x7d\n\n@manual\x7bb,\n    title = \x7bT\x7d,\n\x7d\n") ∧
    composeBib twoManualBiblio ≠
      some ("% manual\n@manual\x7ba,\n    title = \x7bT\x7d,\n\x7d\n@manual\x7bb,\n    title = \x7bT\x7d,\n\x7d\n") := by
  constructor
  · decide
  · decide

/-- The scan of `from_quoted` computes the filtered buffer and the
kept-characters-before-each-removed-character offsets, shifted by the running
counter `i`. -/
theorem fromQuotedGo_spec (p : Char → Bool) (l : List Char) : ∀ i,
    fromQuotedGo p l i = ((removedCharOffsets p l).map (fun n => n + i), l.filter (fun c => !p c)) := by
  induction l with
  | nil => intro i; rfl
  | cons c rest ih =>
      intro i
      by_cases h : p c
      · simp [fromQuotedGo, removedCharOffsets, h, ih i]
      · simp [fromQuotedGo, removedCharOffsets, h, ih (i + 1), List.map_map]
        intro a _
        omega

/-- C4 counterexample: `from_quoted` does NOT record markers at the correct
offsets of the removed characters within the transformed buffer.  The
`QuotedString` markers are byte offsets (`quote` and `from_parts` use byte
lengths and `map_quoted` slices the buffer by bytes), but the scan counts kept
characters: on the input `"é$x$"` with escape `'$'` the code stores markers
`[1, 2]` over the two-character, three-byte buffer `"éx"`, while the correct
byte offsets of the removed characters are `[2, 3]` — and `map_quoted` on the
resulting value panics, because byte offset `1` falls inside the two-byte
`'é'`. -/
theorem from_quoted_wrong_byte_offsets :
    QuotedString.from_quoted "é$x$" (fun c => c == '$') =
      { markers := [1, 2], value := "éx" } ∧
    removedByteOffsets (fun c => c == '$') "é$x$".data = [2, 3] ∧
    (QuotedString.from_quoted "é$x$" (fun c => c == '$')).markers ≠
      removedByteOffsets (fun c => c == '$') "é$x$".data ∧
    (QuotedString.from_quoted "é$x$" (fun c => c == '$')).map_quoted
      (fun s => "\x7b" ++ s ++ "\x7d") = none := by decide

/-- Kept-character counts agree with the correct byte offsets exactly when
every character involved is single-byte. -/
theorem removedCharOffsets_eq_byteOffsets (p : Char → Bool) :
    ∀ l : List Char, (∀ c ∈ l, c.utf8Size = 1) →
      removedCharOffsets p l = removedByteOffsets p l := by
  intro l
  induction l with
  | nil => intro _; rfl
  | cons c rest ih =>
      intro h
      have hc : c.utf8Size = 1 := h c (by simp)
      have hr : ∀ x ∈ rest, x.utf8Size = 1 := fun x hx => h x (by simp [hx])
      by_cases hp : p c
      · simp [removedCharOffsets, removedByteOffsets, hp, ih hr]
      · simp [removedCharOffsets, removedByteOffsets, hp, ih hr, hc]

/-- C4 (amended): `from_quoted` stores a buffer equal to the input with every
predicate-matched character removed, and records for each removed character
the number of kept CHARACTERS preceding it (`removedCharOffsets`) — a
character count that equals the correct byte offset within the transformed
buffer (`removedByteOffsets`) exactly when every character of the input is
single-byte, e.g. for ASCII input; in particular `from_quoted` on the braced
HTTP title followed by `map_quoted` re-wrapping each verbatim span in braces
reproduces the original literal. -/
theorem from_quoted_char_offsets_and_roundtrip :
    (∀ (s : String) (p : Char → Bool),
       (QuotedString.from_quoted s p).value = ⟨s.data.filter (fun c => !p c)⟩ ∧
       (QuotedString.from_quoted s p).markers = removedCharOffsets p s.data) ∧
    (∀ (s : String) (p : Char → Bool), (∀ c ∈ s.data, c.utf8Size = 1) →
       (QuotedString.from_quoted s p).markers = removedByteOffsets p s.data) ∧
    (QuotedString.from_quoted "\x7b(HTTP/1.1)\x7d"
        (fun c => c == '\x7b' || c == '\x7d')).map_quoted (fun s => "\x7b" ++ s ++ "\x7d") =
      some "\x7b(HTTP/1.1)\x7d" := by
  have hbase : ∀ (s : String) (p : Char → Bool),
      (QuotedString.from_quoted s p).value = ⟨s.data.filter (fun c => !p c)⟩ ∧
      (QuotedString.from_quoted s p).markers = removedCharOffsets p s.data := by
    intro s p
    unfold QuotedString.from_quoted
    rw [fromQuotedGo_spec]
    exact ⟨rfl, by simp⟩
  refine ⟨hbase, ?_, by decide⟩
  intro s p h
  rw [(hbase s p).2, removedCharOffsets_eq_byteOffsets p s.data h]

/-- Witness for C4 (amended): the braced HTTP title is all single-byte, so its
markers are the correct byte offsets. -/
theorem from_quoted_char_offsets_witness :
    (QuotedString.from_quoted "\x7b(HTTP/1.1)\x7d"
        (fun c => c == '\x7b' || c == '\x7d')).markers =
      removedByteOffsets (fun c => c == '\x7b' || c == '\x7d') "\x7b(HTTP/1.1)\x7d".data :=
  from_quoted_char_offsets_and_roundtrip.2.1 "\x7b(HTTP/1.1)\x7d"
    (fun c => c == '\x7b' || c == '\x7d') (by decide)

/-- Unfolding equation of `mergeEscapedGo` on a `Verbatim` chunk (zeta-expanded
form of the definition). -/
theorem mergeEscapedGo_verbatim_eq (fuel : Nat) (d : String) (n : Nat) (s : String)
    (rest : List Chunk) :
    mergeEscapedGo (fuel + 1) d n (Chunk.Verbatim s :: rest) =
      (if n == 2
       then (d ++ (if endsWithEscape s then mergeEscapedGo fuel s 0 rest else (s, rest)).1,
             (if endsWithEscape s then mergeEscapedGo fuel s 0 rest else (s, rest)).2)
       else mergeEscapedGo fuel
              (d ++ (if endsWithEscape s then mergeEscapedGo fuel s 0 rest else (s, rest)).1) n
              (if endsWithEscape s then mergeEscapedGo fuel s 0 rest else (s, rest)).2) := rfl

/-- `mergeEscapedGo` only consumes chunks: the unconsumed remainder is no
longer than the input. -/
theorem mergeEscapedGo_rest_length (fuel : Nat) :
    ∀ (d : String) (n : Nat) (l : List Chunk),
      (mergeEscapedGo fuel d n l).2.length ≤ l.length := by
  induction fuel with
  | zero => intro d n l; exact le_rfl
  | succ fuel ih =>
      intro d n l
      cases l with
      | nil => exact le_rfl
      | cons c rest =>
          cases c with
          | Normal s =>
              calc (mergeEscapedGo (fuel + 1) d n (Chunk.Normal s :: rest)).2.length
                  = (mergeEscapedGo fuel (d ++ s) (n + 1) rest).2.length := rfl
                _ ≤ rest.length := ih _ _ rest
                _ ≤ (Chunk.Normal s :: rest).length := by simp
          | Verbatim s =>
              rw [mergeEscapedGo_verbatim_eq]
              have hp : (if endsWithEscape s then mergeEscapedGo fuel s 0 rest
                  else (s, rest)).2.length ≤ rest.length := by
                by_cases he : endsWithEscape s
                · rw [if_pos he]; exact ih _ _ rest
                · rw [if_neg he]
              by_cases hn : (n == 2) = true
              · rw [if_pos hn]
                simpa using Nat.le_succ_of_le hp
              · rw [if_neg hn]
                exact le_trans (ih _ _ _) (by simpa using Nat.le_succ_of_le hp)

/-- `mergeEscapedGo` is fuel-irrelevant once the fuel covers the input length,
so the wrapper `mergeEscaped` (fuel = input length) computes the Rust loop
exactly: the fuel-exhaustion branch is never taken. -/
theorem mergeEscapedGo_fuel_irrelevant (f1 : Nat) :
    ∀ (f2 : Nat) (d : String) (n : Nat) (l : List Chunk),
      l.length ≤ f1 → l.length ≤ f2 → mergeEscapedGo f1 d n l = mergeEscapedGo f2 d n l := by
  induction f1 with
  | zero =>
      intro f2 d n l h1 _
      have hl : l = [] := List.length_eq_zero.mp (Nat.le_zero.mp h1)
      subst hl
      cases f2 <;> rfl
  | succ f1 ih =>
      intro f2 d n l h1 h2
      cases l with
      | nil => cases f2 <;> rfl
      | cons c rest =>
          cases f2 with
          | zero => simp at h2
          | succ f2 =>
              have hr1 : rest.length ≤ f1 := by simp at h1; omega
              have hr2 : rest.length ≤ f2 := by simp at h2; omega
              cases c with
              | Normal s =>
                  show mergeEscapedGo f1 (d ++ s) (n + 1) rest =
                    mergeEscapedGo f2 (d ++ s) (n + 1) rest
                  exact ih f2 _ _ rest hr1 hr2
              | Verbatim s =>
                  rw [mergeEscapedGo_verbatim_eq, mergeEscapedGo_verbatim_eq]
                  have hps : (if endsWithEscape s then mergeEscapedGo f2 s 0 rest else (s, rest)) =
                      (if endsWithEscape s then mergeEscapedGo f1 s 0 rest else (s, rest)) := by
                    by_cases he : endsWithEscape s
                    · rw [if_pos he, if_pos he]
                      exact (ih f2 s 0 rest hr1 hr2).symm
                    · rw [if_neg he, if_neg he]
                  rw [hps]
                  by_cases hn : (n == 2) = true
                  · rw [if_pos hn, if_pos hn]
                  · rw [if_neg hn, if_neg hn]
                    have hlen : (if endsWithEscape s then mergeEscapedGo f1 s 0 rest
                        else (s, rest)).2.length ≤ rest.length := by
                      by_cases he : endsWithEscape s
                      · rw [if_pos he]; exact mergeEscapedGo_rest_length f1 s 0 rest
                      · rw [if_neg he]
                    exact ih f2 _ _ _ (le_trans hlen hr1) (le_trans hlen hr2)

/-- C1: on a verbatim chunk ending in the escape marker `'/'`, the merge
consumes the following chunks in (plain, verbatim) pairs, appending their raw
text to the verbatim buffer and stopping after the second pair — unless the
just-appended verbatim chunk itself ends in the escape marker, in which case
merging recurses on the remaining chunks; the example chunk list
`[Verbatim "(HTTP/", Normal "1", Verbatim ".", Normal "1", Verbatim ")"]`
becomes the single verbatim span `"(HTTP/1.1)"`. -/
theorem verbatim_merge_pairs_and_example :
    (∀ (d s1 v1 s2 v2 : String) (rest : List Chunk),
       endsWithEscape v1 = false → endsWithEscape v2 = false →
       mergeEscaped d 0
           (Chunk.Normal s1 :: Chunk.Verbatim v1 :: Chunk.Normal s2 :: Chunk.Verbatim v2 :: rest) =
         (d ++ s1 ++ v1 ++ s2 ++ v2, rest)) ∧
    (∀ (d s1 v1 s2 v2 : String) (rest : List Chunk),
       endsWithEscape v1 = false → endsWithEscape v2 = true →
       mergeEscaped d 0
           (Chunk.Normal s1 :: Chunk.Verbatim v1 :: Chunk.Normal s2 :: Chunk.Verbatim v2 :: rest) =
         (d ++ s1 ++ v1 ++ s2 ++ (mergeEscaped v2 0 rest).1, (mergeEscaped v2 0 rest).2)) ∧
    chunksToQuotedString [Chunk.Verbatim "(HTTP/", Chunk.Normal "1", Chunk.Verbatim ".",
        Chunk.Normal "1", Chunk.Verbatim ")"] =
      { markers := [0, 10], value := "(HTTP/1.1)" } := by
  have hstep : ∀ (d s1 v1 s2 v2 : String) (rest : List Chunk),
      endsWithEscape v1 = false →
      mergeEscaped d 0
          (Chunk.Normal s1 :: Chunk.Verbatim v1 :: Chunk.Normal s2 :: Chunk.Verbatim v2 :: rest) =
        (if endsWithEscape v2
         then (d ++ s1 ++ v1 ++ s2 ++ (mergeEscapedGo rest.length v2 0 rest).1,
               (mergeEscapedGo rest.length v2 0 rest).2)
         else (d ++ s1 ++ v1 ++ s2 ++ v2, rest)) := by
    intro d s1 v1 s2 v2 rest he1
    have hne1 : ¬(endsWithEscape v1 = true) := by simp [he1]
    show mergeEscapedGo (rest.length + 1 + 1 + 1)
        (d ++ s1) 1 (Chunk.Verbatim v1 :: Chunk.Normal s2 :: Chunk.Verbatim v2 :: rest) = _
    rw [mergeEscapedGo_verbatim_eq, if_neg hne1, if_neg (by decide : ¬((1 == 2) = true))]
    show mergeEscapedGo (rest.length + 1)
        (d ++ s1 ++ v1 ++ s2) 2 (Chunk.Verbatim v2 :: rest) = _
    rw [mergeEscapedGo_verbatim_eq, if_pos (by decide : ((2 == 2) = true))]
    by_cases he2 : endsWithEscape v2
    · rw [if_pos he2, if_pos he2]
    · rw [if_neg he2, if_neg he2]
  refine ⟨?_, ?_, by decide⟩
  · intro d s1 v1 s2 v2 rest he1 he2
    rw [hstep d s1 v1 s2 v2 rest he1, if_neg (by simp [he2])]
  · intro d s1 v1 s2 v2 rest he1 he2
    rw [hstep d s1 v1 s2 v2 rest he1, if_pos he2]
    rfl

/-- Witness for C1, at concrete chunks: merging after the escape-terminated
buffer `"x"` consumes the two (plain, verbatim) pairs and stops, and the
recursive clause applies when the second verbatim chunk ends in `'/'`. -/
theorem verbatim_merge_pairs_witness :
    mergeEscaped "x" 0
        [Chunk.Normal "1", Chunk.Verbatim ".", Chunk.Normal "1", Chunk.Verbatim ")"] =
      ("x" ++ "1" ++ "." ++ "1" ++ ")", []) ∧
    mergeEscaped "x" 0
        [Chunk.Normal "1", Chunk.Verbatim ".", Chunk.Normal "1", Chunk.Verbatim "a/",
         Chunk.Normal "b", Chunk.Verbatim "c", Chunk.Normal "d", Chunk.Verbatim "e"] =
      ("x" ++ "1" ++ "." ++ "1" ++
         (mergeEscaped "a/" 0
           [Chunk.Normal "b", Chunk.Verbatim "c", Chunk.Normal "d", Chunk.Verbatim "e"]).1,
       (mergeEscaped "a/" 0
         [Chunk.Normal "b", Chunk.Verbatim "c", Chunk.Normal "d", Chunk.Verbatim "e"]).2) :=
  ⟨verbatim_merge_pairs_and_example.1 "x" "1" "." "1" ")" [] (by decide) (by decide),
   verbatim_merge_pairs_and_example.2.1 "x" "1" "." "1" "a/"
     [Chunk.Normal "b", Chunk.Verbatim "c", Chunk.Normal "d", Chunk.Verbatim "e"]
     (by decide) (by decide)⟩

/-- Entries of `try_partition` over the resolution results: the resolvers with
no remaining required fields, in order, resolved to entries. -/
theorem tryPartition_resolve_fst (rs : List Resolver) :
    (tryPartition (rs.map Resolver.resolve)).1 =
      (rs.filter fun r => r.req.isEmpty).map entryResolve := by
  induction rs with
  | nil => rfl
  | cons r rest ih =>
      simp only [tryPartition] at ih ⊢
      by_cases h : r.req.isEmpty
      · simp [List.filterMap_cons, Resolver.resolve, h, ih, List.filter_cons]
      · simp [List.filterMap_cons, Resolver.resolve, h, ih, List.filter_cons]

/-- Unresolved remainder of `try_partition` over the resolution results: the
resolvers with remaining required fields, unchanged and in order. -/
theorem tryPartition_resolve_snd (rs : List Resolver) :
    (tryPartition (rs.map Resolver.resolve)).2 =
      rs.filter fun r => !r.req.isEmpty := by
  induction rs with
  | nil => rfl
  | cons r rest ih =>
      simp only [tryPartition] at ih ⊢
      by_cases h : r.req.isEmpty
      · simp [List.filterMap_cons, Resolver.resolve, h, ih, List.filter_cons]
      · simp [List.filterMap_cons, Resolver.resolve, h, ih, List.filter_cons]

/-- Closed form of `BiblioResolver::resolve` in terms of the partition of its
resolvers into satisfiable and unsatisfiable ones. -/
theorem biblioResolver_resolve_eq (br : BiblioResolver) :
    br.resolve =
      (if (br.resolvers.filter fun r => !r.req.isEmpty).isEmpty then
        Except.ok
          { dirty := br.failed,
            entries := hashCollect
              ((br.entries ++ (br.resolvers.filter fun r => r.req.isEmpty).map entryResolve).map
                fun e => (e.cite, e)) }
      else
        Except.error
          { failed := true,
            resolvers := br.resolvers.filter fun r => !r.req.isEmpty,
            entries :=
              br.entries ++ (br.resolvers.filter fun r => r.req.isEmpty).map entryResolve }) := by
  unfold BiblioResolver.resolve
  simp only [tryPartition_resolve_fst, tryPartition_resolve_snd]

/-- Inserting key-value pairs with fresh, pairwise-distinct keys into an
association map appends them in order. -/
theorem hashInsert_foldl_fresh {α : Type} (l : List (String × α)) :
    ∀ acc : List (String × α),
      (∀ k ∈ l.map Prod.fst, k ∉ acc.map Prod.fst) → (l.map Prod.fst).Nodup →
      l.foldl (fun acc p => hashInsert acc p.1 p.2) acc = acc ++ l := by
  induction l with
  | nil => intro acc _ _; simp
  | cons x rest ih =>
      intro acc hdisj hnodup
      have hx : x.1 ∉ acc.map Prod.fst := hdisj x.1 (by simp)
      have hany : (acc.any fun p => p.1 == x.1) = false := by
        rw [List.any_eq_false]
        intro p hp hbe
        exact hx (List.mem_map.mpr ⟨p, hp, by simpa using hbe⟩)
      have hins : hashInsert acc x.1 x.2 = acc ++ [x] := by
        unfold hashInsert
        rw [if_neg (by simp [hany])]
      rw [List.foldl_cons, hins, ih (acc ++ [x]) ?_ ?_]
      · simp
      · intro k hk
        simp only [List.map_append, List.mem_append]
        rintro (hka | hkx)
        · exact hdisj k (by simp [hk]) hka
        · have : k = x.1 := by simpa using hkx
          subst this
          exact (List.nodup_cons.mp hnodup).1 hk
      · exact (List.nodup_cons.mp hnodup).2

/-- Collecting pairs with pairwise-distinct keys into a map keeps them all. -/
theorem hashCollect_nodup {α : Type} (l : List (String × α))
    (h : (l.map Prod.fst).Nodup) : hashCollect l = l := by
  simpa using hashInsert_foldl_fresh l [] (by simp) h

/-- The two filter halves of a partition cover the list. -/
theorem filter_length_partition {α : Type} (p : α → Bool) (l : List α) :
    (l.filter p).length + (l.filter fun a => !p a).length = l.length := by
  induction l with
  | nil => rfl
  | cons a l ih => by_cases h : p a <;> simp [h, List.filter_cons, ← ih] <;> omega

/-- C3 (amended): `try_resolve` on `n` resolvers of which exactly `k` can
currently resolve produces, when `k = n`, a `Collection` with one entry per
citation key — exactly `k` entries when the keys of the resolved entries are
pairwise distinct (duplicate keys collapse because the success branch keys its
entry map by citation key); otherwise it produces a `CollectionResolver`
holding exactly `k` finished entries and `n − k` outstanding resolvers, and
calling `resolve()` on that error value with no intervening field changes
returns the same error value (the `k` entries untouched, the same `n − k`
resolvers outstanding). -/
theorem try_resolve_partition_amended (rs : List Resolver) :
    ((∀ r ∈ rs, r.req = []) → ((rs.map fun r => (entryResolve r).cite).Nodup) →
       Biblio.try_resolve rs =
         Except.ok { dirty := false,
                     entries := (rs.map entryResolve).map fun e => (e.cite, e) } ∧
       ((rs.map entryResolve).map fun e => (e.cite, e)).length = rs.length) ∧
    ((∃ r ∈ rs, r.req ≠ []) →
       Biblio.try_resolve rs =
         Except.error { failed := true,
                        resolvers := rs.filter fun r => !r.req.isEmpty,
                        entries := (rs.filter fun r => r.req.isEmpty).map entryResolve } ∧
       ((rs.filter fun r => r.req.isEmpty).map entryResolve).length +
         (rs.filter fun r => !r.req.isEmpty).length = rs.length ∧
       BiblioResolver.resolve
           { failed := true,
             resolvers := rs.filter fun r => !r.req.isEmpty,
             entries := (rs.filter fun r => r.req.isEmpty).map entryResolve } =
         Except.error { failed := true,
                        resolvers := rs.filter fun r => !r.req.isEmpty,
                        entries := (rs.filter fun r => r.req.isEmpty).map entryResolve }) := by
  constructor
  · intro hall hnodup
    have hall' : rs.filter (fun r => r.req.isEmpty) = rs :=
      List.filter_eq_self.mpr fun r hr => by simp [hall r hr]
    have hnone : rs.filter (fun r => !r.req.isEmpty) = [] := by
      rw [List.filter_eq_nil_iff]
      intro r hr
      simp [hall r hr]
    unfold Biblio.try_resolve
    rw [biblioResolver_resolve_eq]
    simp only [hnone, hall', List.isEmpty_nil, if_true, List.nil_append]
    constructor
    · have hkeys : ((rs.map entryResolve).map fun e => (e.cite, e)).map Prod.fst =
          rs.map fun r => (entryResolve r).cite := by
        simp [List.map_map]
      rw [hashCollect_nodup _ (by rw [hkeys]; exact hnodup)]
    · simp
  · rintro ⟨r0, hr0, hne⟩
    have hmem : r0 ∈ rs.filter fun r => !r.req.isEmpty :=
      List.mem_filter.mpr ⟨hr0, by simp [hne]⟩
    have hnonempty : (rs.filter fun r => !r.req.isEmpty).isEmpty = false := by
      cases hf : rs.filter fun r => !r.req.isEmpty with
      | nil => rw [hf] at hmem; cases hmem
      | cons a l => simp
    refine ⟨?_, ?_, ?_⟩
    · unfold Biblio.try_resolve
      rw [biblioResolver_resolve_eq]
      simp only [hnonempty, Bool.false_eq_true, if_false, List.nil_append]
    · simpa using filter_length_partition (fun r => r.req.isEmpty) rs
    · rw [biblioResolver_resolve_eq]
      have hsub_all : ((rs.filter fun r => !r.req.isEmpty).filter fun r => !r.req.isEmpty) =
          rs.filter fun r => !r.req.isEmpty :=
        List.filter_eq_self.mpr fun r hr => (List.mem_filter.mp hr).2
      have hsub_none : ((rs.filter fun r => !r.req.isEmpty).filter fun r => r.req.isEmpty) = [] := by
        rw [List.filter_eq_nil_iff]
        intro r hr
        have hprop := (List.mem_filter.mp hr).2
        simp at hprop
        simp [hprop]
      simp only [hsub_all, hsub_none, hnonempty, Bool.false_eq_true, if_false,
        List.map_nil, List.append_nil]

/-- Witness for C3 (amended): one satisfiable and one unsatisfiable resolver
partition into one entry and one outstanding resolver, and re-resolving the
error value reproduces it. -/
theorem try_resolve_partition_witness :
    Biblio.try_resolve [resolvedManual "a", unsetManual "b"] =
      Except.error { failed := true, resolvers := [unsetManual "b"],
                     entries := [manualEntry "a"] } ∧
    (1 + 1 : Nat) = 2 ∧
    BiblioResolver.resolve
        { failed := true, resolvers := [unsetManual "b"], entries := [manualEntry "a"] } =
      Except.error { failed := true, resolvers := [unsetManual "b"],
                     entries := [manualEntry "a"] } :=
  (try_resolve_partition_amended [resolvedManual "a", unsetManual "b"]).2
    ⟨unsetManual "b", by decide, by decide⟩

/-- Concatenation distributes over `strConcat`. -/
theorem strConcat_append (l1 l2 : List String) :
    strConcat (l1 ++ l2) = strConcat l1 ++ strConcat l2 := by
  induction l1 with
  | nil => simp [strConcat]
  | cons s t ih => simp [strConcat, ih, String.append_assoc]

/-- Folding string concatenation over a list appends its `strConcat`. -/
theorem foldl_append_strConcat (l : List String) :
    ∀ acc, l.foldl (fun a s => a ++ s) acc = acc ++ strConcat l := by
  induction l with
  | nil => intro acc; simp [strConcat]
  | cons s t ih => intro acc; simp [strConcat, ih, String.append_assoc]

/-- Appending one element to the input of the first-occurrence deduplication. -/
theorem dedupFirst_append (m : List String) (y : String) :
    dedupFirst (m ++ [y]) = if y ∈ m then dedupFirst m else dedupFirst m ++ [y] := by
  induction m with
  | nil => simp [dedupFirst]
  | cons k t ih =>
      show dedupFirst (k :: (t ++ [y])) = _
      simp only [dedupFirst]
      rw [ih]
      by_cases hy : y ∈ t
      · rw [if_pos hy, if_pos (show y ∈ k :: t by simp [hy])]
      · rw [if_neg hy]
        by_cases hyk : y = k
        · subst hyk
          rw [if_pos (show y ∈ y :: t by simp), List.filter_append]
          simp
        · rw [if_neg (show y ∉ k :: t by simp [hy, hyk]), List.filter_append]
          simp [hyk]

/-- Membership is preserved by first-occurrence deduplication. -/
theorem mem_dedupFirst (a : String) : ∀ m : List String, a ∈ dedupFirst m ↔ a ∈ m := by
  intro m
  induction m with
  | nil => simp [dedupFirst]
  | cons k t ih =>
      by_cases hak : a = k
      · subst hak
        simp [dedupFirst]
      · simp [dedupFirst, List.mem_filter, ih, hak]

/-- Appending a pair to the input of `kindsInOrder`. -/
theorem kindsInOrder_append (l : List (String × String)) (x : String × String) :
    kindsInOrder (l ++ [x]) =
      if x.1 ∈ l.map Prod.fst then kindsInOrder l else kindsInOrder l ++ [x.1] := by
  unfold kindsInOrder
  rw [List.map_append, List.map_cons, List.map_nil, dedupFirst_append]

/-- Appending a pair to the input of `entriesOfKind`. -/
theorem entriesOfKind_append (k : String) (l : List (String × String)) (x : String × String) :
    entriesOfKind k (l ++ [x]) =
      entriesOfKind k l ++ (if x.1 = k then [x.2] else []) := by
  unfold entriesOfKind
  rw [List.filter_append]
  by_cases h : x.1 = k
  · simp [h]
  · simp [h]

/-- A kind has no entries exactly when it does not occur among the keys. -/
theorem entriesOfKind_eq_nil (k : String) (l : List (String × String)) :
    entriesOfKind k l = [] ↔ k ∉ l.map Prod.fst := by
  unfold entriesOfKind
  simp only [List.map_eq_nil_iff, List.filter_eq_nil_iff, List.mem_map, decide_eq_true_eq]
  constructor
  · rintro h ⟨p, hp, hpk⟩
    exact h p hp hpk
  · intro h p hp hpk
    exact h ⟨p, hp, hpk⟩

/-- Appending an entry text to a nonempty group extends the group text with no
separator. -/
theorem groupText_append (k : String) (es : List String) (x : String) (h : es ≠ []) :
    groupText k (es ++ [x]) = groupText k es ++ x := by
  cases es with
  | nil => exact absurd rfl h
  | cons e rest =>
      simp [groupText, strConcat_append, strConcat, String.append_assoc, String.append_empty]

/-- `buildGroups` over one more pair is one `insertGroup` step. -/
theorem buildGroups_append (l : List (String × String)) (x : String × String) :
    buildGroups (l ++ [x]) = insertGroup (buildGroups l) x.1 x.2 := by
  unfold buildGroups
  rw [List.foldl_append]
  rfl

/-- The grouping map of `BibTex::compose`, described: one group per kind label
in first-occurrence order, each carrying its header and its entry texts in
input order (blank line after the first). -/
theorem buildGroups_spec (pairs : List (String × String)) :
    buildGroups pairs =
      (kindsInOrder pairs).map fun k => (k, groupText k (entriesOfKind k pairs)) := by
  induction pairs using List.reverseRecOn with
  | nil => rfl
  | append_singleton l x ih =>
      rw [buildGroups_append, ih, kindsInOrder_append]
      by_cases hx : x.1 ∈ l.map Prod.fst
      · rw [if_pos hx]
        have hmemkinds : x.1 ∈ kindsInOrder l := (mem_dedupFirst x.1 (l.map Prod.fst)).mpr hx
        have hany : (((kindsInOrder l).map
            fun k => (k, groupText k (entriesOfKind k l))).any fun p => p.1 == x.1) = true := by
          rw [List.any_eq_true]
          exact ⟨(x.1, groupText x.1 (entriesOfKind x.1 l)),
            List.mem_map.mpr ⟨x.1, hmemkinds, rfl⟩, by simp⟩
        unfold insertGroup
        rw [if_pos hany, List.map_map]
        apply List.map_congr_left
        intro k hk
        by_cases hkx : k = x.1
        · have hkmem : k ∈ l.map Prod.fst := by rw [hkx]; exact hx
          have hne : entriesOfKind k l ≠ [] := by
            intro hnil
            exact ((entriesOfKind_eq_nil k l).mp hnil) hkmem
          have hbe : (k == x.1) = true := by simp [hkx]
          simp only [Function.comp_apply, hbe, if_true]
          rw [entriesOfKind_append, if_pos hkx.symm, groupText_append k _ _ hne]
        · have hbe : (k == x.1) = false := by simp [hkx]
          simp only [Function.comp_apply, hbe, Bool.false_eq_true, if_false]
          rw [entriesOfKind_append, if_neg (fun hc => hkx hc.symm), List.append_nil]
      · rw [if_neg hx]
        have hnotkinds : x.1 ∉ kindsInOrder l :=
          fun hc => hx ((mem_dedupFirst x.1 (l.map Prod.fst)).mp hc)
        have hany : (((kindsInOrder l).map
            fun k => (k, groupText k (entriesOfKind k l))).any fun p => p.1 == x.1) = false := by
          rw [List.any_eq_false]
          rintro p hp
          obtain ⟨k, hk, rfl⟩ := List.mem_map.mp hp
          intro hc
          have hke : k = x.1 := by simpa using hc
          exact hnotkinds (hke ▸ hk)
        unfold insertGroup
        rw [if_neg (by simp [hany]), List.map_append]
        congr 1
        · apply List.map_congr_left
          intro k hk
          have hkx : x.1 ≠ k := fun hc => hnotkinds (hc ▸ hk)
          rw [entriesOfKind_append, if_neg hkx, List.append_nil]
        · simp only [List.map_cons, List.map_nil]
          have hnil : entriesOfKind x.1 l = [] := (entriesOfKind_eq_nil x.1 l).mpr hx
          rw [entriesOfKind_append, if_pos rfl, hnil, List.nil_append]
          simp [groupText, strConcat, String.append_assoc, String.append_empty]

/-- Sorted insertion of a `(key, f key)` pair commutes with insertion of the
key alone. -/
theorem insertSortedPair_map (f : String → String) (x : String) (ks : List String) :
    insertSortedPair (x, f x) (ks.map fun k => (k, f k)) =
      (insertSortedKey x ks).map fun k => (k, f k) := by
  induction ks with
  | nil => rfl
  | cons y t ih =>
      simp only [List.map_cons, insertSortedPair, insertSortedKey]
      by_cases h : x ≤ y
      · rw [if_pos h, if_pos h]
        simp
      · rw [if_neg h, if_neg h]
        simp [ih]

/-- Sorting `(key, f key)` pairs by key commutes with sorting the keys. -/
theorem sortGroups_map (f : String → String) (ks : List String) :
    sortGroups (ks.map fun k => (k, f k)) = (sortKeys ks).map fun k => (k, f k) := by
  induction ks with
  | nil => rfl
  | cons x t ih =>
      simp only [List.map_cons, sortGroups, sortKeys, ih, insertSortedPair_map]

/-- Every member of a sorted insertion is the inserted pair or an original. -/
theorem mem_insertSortedPair (x y : String × String) :
    ∀ l, y ∈ insertSortedPair x l → y = x ∨ y ∈ l := by
  intro l
  induction l with
  | nil => simp [insertSortedPair]
  | cons z t ih =>
      simp only [insertSortedPair]
      by_cases h : x.1 ≤ z.1
      · rw [if_pos h]
        intro hy
        rcases List.mem_cons.mp hy with rfl | hy2
        · exact Or.inl rfl
        · exact Or.inr hy2
      · rw [if_neg h]
        intro hy
        rcases List.mem_cons.mp hy with rfl | hy2
        · exact Or.inr (by simp)
        · rcases ih hy2 with rfl | hy3
          · exact Or.inl rfl
          · exact Or.inr (by simp [hy3])

/-- Sorted insertion preserves pairwise key-sortedness. -/
theorem insertSortedPair_pairwise (x : String × String) :
    ∀ l, List.Pairwise (fun p q : String × String => p.1 ≤ q.1) l →
      List.Pairwise (fun p q : String × String => p.1 ≤ q.1) (insertSortedPair x l) := by
  intro l
  induction l with
  | nil => intro _; simp [insertSortedPair]
  | cons z t ih =>
      intro hp
      obtain ⟨hz, ht⟩ := List.pairwise_cons.mp hp
      simp only [insertSortedPair]
      by_cases h : x.1 ≤ z.1
      · rw [if_pos h]
        refine List.pairwise_cons.mpr ⟨?_, hp⟩
        intro q hq
        rcases List.mem_cons.mp hq with rfl | hq2
        · exact h
        · exact le_trans h (hz q hq2)
      · rw [if_neg h]
        refine List.pairwise_cons.mpr ⟨?_, ih ht⟩
        intro q hq
        rcases mem_insertSortedPair x q t hq with rfl | hq2
        · exact le_of_not_le h
        · exact hz q hq2

/-- The group sort of `BibTex::compose` produces a key-sorted list. -/
theorem sortGroups_pairwise :
    ∀ l, List.Pairwise (fun p q : String × String => p.1 ≤ q.1) (sortGroups l) := by
  intro l
  induction l with
  | nil => simp [sortGroups]
  | cons x t ih => exact insertSortedPair_pairwise x (sortGroups t) ih

/-- The grouping stage of `BibTex::compose` equals its specification: groups
per kind in sorted order, header plus first entry plus blank line plus the
remaining entries. -/
theorem composeRaw_spec (pairs : List (String × String)) :
    composeRaw pairs = specComposeRaw pairs := by
  unfold composeRaw specComposeRaw
  rw [buildGroups_spec, sortGroups_map, foldl_append_strConcat, List.map_map]
  rw [String.empty_append]
  congr 1

/-- C6 (amended): `compose` groups the serialized entries by kind label with
exactly one `% kind` header per group, orders the groups lexicographically by
kind label, and emits a blank line after the first entry of each group —
entries after the first are appended with no separator, so a blank line
separates a group from its successor exactly when the group has one entry. -/
theorem compose_grouping_amended (b : Biblio) (pairs : List (String × String))
    (h : composePairs (b.entries.map fun p => p.2) = some pairs) :
    composeBib b = some (specComposeRaw pairs) ∧
    List.Pairwise (fun p q : String × String => p.1 ≤ q.1) (sortGroups (buildGroups pairs)) := by
  constructor
  · unfold composeBib
    rw [h]
    simp [composeRaw_spec]
  · exact sortGroups_pairwise _

/-- Witness for C6 (amended), at the two-`manual` collection. -/
theorem compose_grouping_witness :
    composeBib twoManualBiblio =
      some (specComposeRaw
        [("manual", "@manual\x7ba,\n    title = \x7bT\x7d,\n\x7d\n"),
         ("manual", "@manual\x7bb,\n    title = \x7bT\x7d,\n\x7d\n")]) ∧
    List.Pairwise (fun p q : String × String => p.1 ≤ q.1)
      (sortGroups (buildGroups
        [("manual", "@manual\x7ba,\n    title = \x7bT\x7d,\n\x7d\n"),
         ("manual", "@manual\x7bb,\n    title = \x7bT\x7d,\n\x7d\n")])) :=
  compose_grouping_amended twoManualBiblio
    [("manual", "@manual\x7ba,\n    title = \x7bT\x7d,\n\x7d\n"),
     ("manual", "@manual\x7bb,\n    title = \x7bT\x7d,\n\x7d\n")] (by decide)

/-- UTF-8 byte length adds over concatenation. -/
theorem utf8Len_append (a b : List Char) : utf8Len (a ++ b) = utf8Len a + utf8Len b := by
  induction a with
  | nil => simp [utf8Len]
  | cons c t ih => simp [utf8Len, ih]; omega

/-- Dropping exactly the bytes of a prefix yields the suffix. -/
theorem dropBytes_exact (pre suf : List Char) :
    dropBytes (pre ++ suf) (utf8Len pre) = some suf := by
  induction pre with
  | nil => simp [utf8Len, dropBytes]
  | cons c t ih =>
      have hpos := Char.utf8Size_pos c
      have h1 : utf8Len (c :: t) = (c.utf8Size - 1 + utf8Len t) + 1 := by
        simp [utf8Len]
        omega
      rw [List.cons_append, h1]
      simp only [dropBytes]
      rw [if_pos (by omega)]
      have h2 : c.utf8Size - 1 + utf8Len t + 1 - c.utf8Size = utf8Len t := by omega
      rw [h2]
      exact ih

/-- Taking exactly the bytes of a prefix yields that prefix. -/
theorem takeBytes_exact (mid suf : List Char) :
    takeBytes (mid ++ suf) (utf8Len mid) = some mid := by
  induction mid with
  | nil => simp [utf8Len, takeBytes]
  | cons c t ih =>
      have hpos := Char.utf8Size_pos c
      have h1 : utf8Len (c :: t) = (c.utf8Size - 1 + utf8Len t) + 1 := by
        simp [utf8Len]
        omega
      rw [List.cons_append, h1]
      simp only [takeBytes]
      rw [if_pos (by omega)]
      have h2 : c.utf8Size - 1 + utf8Len t + 1 - c.utf8Size = utf8Len t := by omega
      rw [h2, ih]
      rfl

/-- A character boundary offset never exceeds the total byte length. -/
theorem boundary_le (l : List Char) (n : Nat) (h : Boundary l n) : n ≤ utf8Len l := by
  obtain ⟨pre, suf, rfl, rfl⟩ := h
  rw [utf8Len_append]
  omega

/-- Only the empty character list has zero byte length. -/
theorem utf8Len_zero_iff_nil (l : List Char) (h : utf8Len l = 0) : l = [] := by
  cases l with
  | nil => rfl
  | cons c t =>
      have := Char.utf8Size_pos c
      simp [utf8Len] at h
      omega

/-- Slicing between two boundaries in order cannot panic. -/
theorem sliceStr_isSome (s : String) (a b : Nat)
    (ha : Boundary s.data a) (hb : Boundary s.data b) (hab : a ≤ b) :
    (sliceStr s a b).isSome = true := by
  obtain ⟨pa, sa, hsa, hla⟩ := ha
  obtain ⟨pb, sb, hsb, hlb⟩ := hb
  have hpa : pa <+: s.data := ⟨sa, hsa.symm⟩
  have hpb : pb <+: s.data := ⟨sb, hsb.symm⟩
  have hmid : ∃ mid, pb = pa ++ mid := by
    rcases List.prefix_or_prefix_of_prefix hpa hpb with h1 | h2
    · obtain ⟨mid, hm⟩ := h1
      exact ⟨mid, hm.symm⟩
    · obtain ⟨t, ht⟩ := h2
      have hlen : utf8Len pb + utf8Len t = utf8Len pa := by
        have := congrArg utf8Len ht
        rwa [utf8Len_append] at this
      have ht0 : t = [] := utf8Len_zero_iff_nil t (by omega)
      subst ht0
      have hpba : pb = pa := by simpa using ht
      exact ⟨[], by simp [hpba]⟩
  obtain ⟨mid, rfl⟩ := hmid
  have hsa2 : sa = mid ++ sb := by
    have hsame : pa ++ sa = pa ++ (mid ++ sb) := by
      rw [← hsa, hsb, List.append_assoc]
    exact List.append_cancel_left hsame
  have hmidlen : utf8Len mid = b - a := by
    rw [utf8Len_append] at hlb
    omega
  have hdrop : dropBytes s.data a = some sa := by
    rw [hsa, ← hla]
    exact dropBytes_exact pa sa
  have htake : takeBytes sa (b - a) = some mid := by
    rw [hsa2, ← hmidlen]
    exact takeBytes_exact mid sb
  unfold sliceStr
  rw [if_pos hab, hdrop]
  simp [htake]

/-- The marker walk of `map_quoted` cannot panic when the markers ascend from
the current position and all lie on character boundaries. -/
theorem mapQuotedGo_isSome (v : String) (f : String → String) :
    ∀ (ms : List Nat) (vb : Bool) (pos : Nat) (acc : String),
      Boundary v.data pos → (∀ m ∈ ms, Boundary v.data m) →
      List.Chain (fun a b => a ≤ b) pos ms →
      (mapQuotedGo v f ms vb pos acc).isSome = true := by
  intro ms
  induction ms with
  | nil =>
      intro vb pos acc hpos _ _
      simp only [mapQuotedGo]
      by_cases h : pos < byteLen v
      · rw [if_pos h, Option.isSome_map']
        exact sliceStr_isSome v pos (byteLen v) hpos ⟨v.data, [], by simp, rfl⟩ (le_of_lt h)
      · rw [if_neg h]
        rfl
  | cons m ms ih =>
      intro vb pos acc hpos hmem hchain
      obtain ⟨hpm, hchain2⟩ := List.chain_cons.mp hchain
      have hm : Boundary v.data m := hmem m (by simp)
      obtain ⟨s, hs⟩ := Option.isSome_iff_exists.mp (sliceStr_isSome v pos m hpos hm hpm)
      simp only [mapQuotedGo]
      rw [hs, Option.some_bind]
      exact ih (!vb) m _ hm (fun m2 hm2 => hmem m2 (by simp [hm2])) hchain2

/-- `map_quoted` cannot panic on a value with valid markers. -/
theorem map_quoted_isSome (qs : QuotedString) (f : String → String) (h : ValidMarkers qs) :
    (qs.map_quoted f).isSome = true := by
  unfold QuotedString.map_quoted
  by_cases he : qs.value.data.isEmpty
  · rw [if_pos he]
    rfl
  · rw [if_neg he]
    exact mapQuotedGo_isSome qs.value f qs.markers false 0 ""
      ⟨[], qs.value.data, by simp, rfl⟩ h.2 h.1

/-- A some-or-else conditional is `isSome` whenever its fallback is. -/
theorem ite_some_isSome {α : Type} (c : Prop) [Decidable c] (x : α) (o : Option α)
    (h : o.isSome = true) : (if c then some x else o).isSome = true := by
  by_cases hc : c
  · rw [if_pos hc]
    rfl
  · rw [if_neg hc]
    exact h

/-- `to_short_month` cannot panic on a safe month value. -/
theorem toShortMonth_isSome (qs : QuotedString) (h : monthSafe qs) :
    (toShortMonth qs).isSome = true := by
  unfold toShortMonth
  rw [Option.isSome_map']
  rcases h with ⟨n, hp, h1, h2⟩ | hs
  · rw [hp]
    interval_cases n <;> rfl
  · cases hp : parseI32 qs.value with
    | none => exact hs
    | some k =>
        exact ite_some_isSome _ _ _ (ite_some_isSome _ _ _ (ite_some_isSome _ _ _
          (ite_some_isSome _ _ _ (ite_some_isSome _ _ _ (ite_some_isSome _ _ _
            (ite_some_isSome _ _ _ (ite_some_isSome _ _ _ (ite_some_isSome _ _ _
              (ite_some_isSome _ _ _ (ite_some_isSome _ _ _
                (ite_some_isSome _ _ _ hs)))))))))))

/-- `compose_field` cannot panic on a safe field. -/
theorem composeField_isSome (fld : String × QuotedString) (h : SafeField fld) :
    (composeField fld).isSome = true := by
  unfold composeField
  unfold SafeField at h
  by_cases hn : (⟨fld.1.data.filter (fun c => c ≠ '_')⟩ : String) = "month"
  · rw [if_pos hn]
    rw [if_pos hn] at h
    exact toShortMonth_isSome fld.2 h
  · rw [if_neg hn]
    rw [if_neg hn] at h
    rw [Option.isSome_map']
    exact map_quoted_isSome fld.2 bibtexEsc h

/-- `compose_fields` cannot panic when every field is safe. -/
theorem composeFields_isSome (fields : List (String × QuotedString))
    (h : ∀ f ∈ fields, SafeField f) : (composeFields fields).isSome = true := by
  induction fields with
  | nil => rfl
  | cons fld rest ih =>
      obtain ⟨s, hs⟩ := Option.isSome_iff_exists.mp (composeField_isSome fld (h fld (by simp)))
      obtain ⟨t, ht⟩ := Option.isSome_iff_exists.mp (ih fun f hf => h f (by simp [hf]))
      simp [composeFields, hs, ht]

/-- `compose_entry` cannot panic on a safe entry. -/
theorem composeEntry_isSome (e : Entry) (h : SafeEntry e) :
    (composeEntry e).isSome = true := by
  unfold composeEntry
  rw [Option.isSome_map']
  exact composeFields_isSome e.fields h

/-- Serializing a list of safe entries cannot panic. -/
theorem composePairs_isSome (entries : List Entry) (h : ∀ e ∈ entries, SafeEntry e) :
    (composePairs entries).isSome = true := by
  induction entries with
  | nil => rfl
  | cons e rest ih =>
      obtain ⟨s, hs⟩ := Option.isSome_iff_exists.mp (composeEntry_isSome e (h e (by simp)))
      obtain ⟨t, ht⟩ := Option.isSome_iff_exists.mp (ih fun x hx => h x (by simp [hx]))
      simp [composePairs, hs, ht]

/-- C9 (amended): parsing and composing are pure, terminating functions over
owned data, but `compose` is total only on collections whose fields avoid its
two partial operations: every field named `month` (after underscore removal)
must parse as an integer 1–12 or keep a valid three-byte character-boundary
prefix (`to_short_month` panics otherwise, e.g. on the value `"ab"`), and every
other field value's verbatim markers must be ascending character-boundary
offsets (as all `QuotedString` constructors on ASCII text produce; `map_quoted`
panics otherwise).  On every such collection `compose` returns a string. -/
theorem compose_total_on_safe_fields (b : Biblio) (h : ∀ p ∈ b.entries, SafeEntry p.2) :
    (composeBib b).isSome = true := by
  unfold composeBib
  rw [Option.isSome_map']
  apply composePairs_isSome
  intro e he
  obtain ⟨p, hp, rfl⟩ := List.mem_map.mp he
  exact h p hp

/-- Witness for C9 (amended): composing the two-`manual` collection (safe
fields only) yields a string. -/
theorem compose_total_on_safe_fields_witness : (composeBib twoManualBiblio).isSome = true := by
  apply compose_total_on_safe_fields twoManualBiblio
  intro p hp
  have hsf : SafeField ("title", QuotedString.new "T") := by
    unfold SafeField
    rw [if_neg (by decide)]
    exact ⟨List.Chain.nil, fun m hm => by simp [QuotedString.new] at hm⟩
  have hp2 : p = ("a", manualEntry "a") ∨ p = ("b", manualEntry "b") := by
    simpa [twoManualBiblio] using hp
  intro f hf
  rcases hp2 with rfl | rfl <;>
    · simp only [manualEntry] at hf
      have hf2 : f = ("title", QuotedString.new "T") := by simpa using hf
      rw [hf2]
      exact hsf
